import Mathlib

/-!
Verification of the js-query condition evaluator (saber71/js-query).

The development shallowly embeds the JavaScript source of `src/dist/index.d.ts`
(the bundled implementation half of that file): `matchQueryCondition`,
`parseQueryCondition`, `parseCondition`, `isCondition`, `includes`, and the
leaf operator tests, over a closed model `JSVal` of the JavaScript values the
library manipulates (undefined, null, booleans, numbers, strings, Dates,
RegExps, arrays, plain objects).

Modelling conventions, applied uniformly:
* Numbers are modelled as `Int` (the repository only exercises integral
  numbers); `NaN` is represented by `Option.none` at the points where the
  code can produce it (`ToNumber`, `new Date(string).getTime()`).
* The three host collaborators that are external to the library —
  `new Date(string).getTime()`, RegExp compilation/`test`, and
  `Date.prototype.toString` — are abstracted as an `Externals` record, as the
  spec (§1, §6) treats them as black boxes.
* Predicates compiled by the library are only ever consumed in JavaScript
  boolean contexts (`Array.prototype.every`, `if`, `!`), so they are modelled
  as `JSVal → Bool` with the ToBoolean coercion (`truthy`) applied at each
  return point where the JavaScript code returns a non-boolean value.
* Spec §7 states that `undefined is not a function`-style failures on
  malformed inputs "should instead be treated as returning a does-not-match
  result"; the few unreachable-from-well-formed-input throw sites
  (`.map`/`.forEach`/`.find`/`.test` on a value of the wrong type) are
  modelled accordingly and marked with comments.
* To keep every function structurally recursive (hence executable inside the
  kernel), the one place where the JavaScript recurses on the *same* value it
  is currently dispatching on (`parseQueryCondition`'s self-call for a nested
  condition) is unfolded by one step; the lemma `pqcKey_nested` below
  restores the source's call shape.
-/

/-- Model of the JavaScript values flowing through the library: items, field
values, condition documents and operator operands. -/
inductive JSVal where
  | undef
  | null
  | bool (b : Bool)
  | num (n : Int)
  | str (s : String)
  | date (t : Int)
  | regex (source : String)
  | arr (elems : List JSVal)
  | obj (fields : List (String × JSVal))

/-- JavaScript ToBoolean coercion (truthiness). -/
def truthy : JSVal → Bool
  | .undef => false
  | .null => false
  | .bool b => b
  | .num n => n != 0
  | .str s => s != ""
  | _ => true

/-- JavaScript `typeof`. Note `typeof null` is "object". -/
def typeofStr : JSVal → String
  | .undef => "undefined"
  | .null => "object"
  | .bool _ => "boolean"
  | .num _ => "number"
  | .str _ => "string"
  | _ => "object"

/-- Decimal digit-string value; `none` on the empty string or a non-digit. -/
def parseDigitsAux (acc : Nat) : List Char → Option Nat
  | [] => some acc
  | c :: cs => if c.isDigit then parseDigitsAux (10 * acc + (c.toNat - 48)) cs else none

/-- Value of a nonempty all-digit character list. -/
def parseDigits : List Char → Option Nat
  | [] => none
  | cs => parseDigitsAux 0 cs

/-- ASCII whitespace, the fragment of the whitespace JavaScript trims that the
repository can exercise. -/
def isWsChar (c : Char) : Bool :=
  c == ' ' || c == '\t' || c == '\n' || c == '\r'

/-- Trim leading and trailing whitespace from a character list. -/
def trimChars (cs : List Char) : List Char :=
  ((cs.dropWhile isWsChar).reverse.dropWhile isWsChar).reverse

/-- JavaScript ToNumber on a string (`Number(s)` semantics), restricted to the
optional-sign decimal-integer literals the repository exercises: surrounding
whitespace is trimmed, the empty string yields 0, anything that is not an
integer literal yields `none` (NaN). -/
def strToNumber (s : String) : Option Int :=
  match trimChars s.toList with
  | [] => some 0
  | '-' :: rest => (parseDigits rest).map (fun n => -(n : Int))
  | '+' :: rest => (parseDigits rest).map (fun n => (n : Int))
  | t => (parseDigits t).map (fun n => (n : Int))

/-- JavaScript ToNumber on a primitive value; `none` models NaN. Only applied
after ToPrimitive, so the object constructors are unreachable here. -/
def toNumber : JSVal → Option Int
  | .undef => none
  | .null => some 0
  | .bool b => some (if b then 1 else 0)
  | .num n => some n
  | .str s => strToNumber s
  | _ => none

/-- First binding of a key in an object's field list (JavaScript property
lookup; objects never carry duplicate keys). -/
def findField : List (String × JSVal) → String → Option JSVal
  | [], _ => none
  | (k, v) :: rest, key => if k == key then some v else findField rest key

/-- A key read as a canonical array index ("0", "1", …: digits only, no
leading zero except "0" itself) — the only string keys that address array or
string elements. -/
def strIndex? (key : String) : Option Nat :=
  match key.toList with
  | [] => none
  | ['0'] => some 0
  | '0' :: _ => none
  | cs => if cs.all Char.isDigit then parseDigits cs else none

/-- JavaScript property read `item[key]`, as the library uses it: object
fields, array indices and `length`, string indices and `length`; every other
access yields `undefined`. (Reading a property of `undefined`/`null` throws
in JavaScript; per spec §7 such a throw is a does-not-match result, modelled
as `undefined`, which no positive operator matches.) -/
def getField (item : JSVal) (key : String) : JSVal :=
  match item with
  | .obj fs => (findField fs key).getD .undef
  | .arr xs =>
    if key == "length" then .num xs.length
    else
      match strIndex? key with
      | some i => xs.getD i .undef
      | none => .undef
  | .str s =>
    if key == "length" then .num s.length
    else
      match strIndex? key with
      | some i =>
        match s.toList.get? i with
        | some c => .str (toString c)
        | none => .undef
      | none => .undef
  | _ => (.undef)

/-- Substring test, the semantics of `String.prototype.includes`. -/
def strContains (s sub : String) : Bool :=
  s.toList.tails.any (fun t => sub.toList.isPrefixOf t)

/-- The host-environment collaborators the library calls but does not define
(spec §1 and §6 treat them as external black boxes):
`parseDate s` models `new Date(s).getTime()` (`none` = NaN, i.e. an
unparseable string), `regexTest src text` models
`new RegExp(src).test(text)`, and `dateToString` models
`Date.prototype.toString` (host/timezone dependent). -/
structure Externals where
  parseDate : String → Option Int
  regexTest : String → String → Bool
  dateToString : Int → String

mutual

/-- JavaScript ToString coercion `String(v)` for the values of the model.
Arrays render as their elements joined with "," (Array.prototype.toString),
plain objects as "[object Object]". -/
def jsToString (E : Externals) : JSVal → String
  | .undef => "undefined"
  | .null => "null"
  | .bool b => if b then "true" else "false"
  | .num n => toString n
  | .str s => s
  | .date t => E.dateToString t
  | .regex src => "/" ++ src ++ "/"
  | .arr xs => joinElems E xs
  | .obj _ => "[object Object]"
termination_by structural v => v

/-- `Array.prototype.join ","` over the element list: each element is
ToString-coerced, except that `undefined` and `null` render as the empty
string. -/
def joinElems (E : Externals) : List JSVal → String
  | [] => ""
  | [.undef] => ""
  | [.null] => ""
  | [x] => jsToString E x
  | .undef :: rest => "," ++ joinElems E rest
  | .null :: rest => "," ++ joinElems E rest
  | x :: rest => jsToString E x ++ "," ++ joinElems E rest
termination_by structural l => l

end

/-- ToPrimitive with number hint, as used by the relational operators:
Dates yield their time value (valueOf), other objects fall back to their
string rendering; primitives pass through. -/
def toPrimitiveNum (E : Externals) : JSVal → JSVal
  | .date t => .num t
  | .arr xs => .str (jsToString E (.arr xs))
  | .obj fs => .str (jsToString E (.obj fs))
  | .regex src => .str (jsToString E (.regex src))
  | v => v

/-- JavaScript `<` (abstract relational comparison): if both operands
ToPrimitive to strings, compare lexicographically; otherwise compare the
ToNumber images, with any NaN making the comparison false. -/
def jsLt (E : Externals) (a b : JSVal) : Bool :=
  match toPrimitiveNum E a, toPrimitiveNum E b with
  | .str x, .str y => decide (x < y)
  | pa, pb =>
    match toNumber pa, toNumber pb with
    | some x, some y => decide (x < y)
    | _, _ => false

/-- JavaScript `<=`: false whenever NaN is involved, otherwise the
non-strict comparison. -/
def jsLe (E : Externals) (a b : JSVal) : Bool :=
  match toPrimitiveNum E a, toPrimitiveNum E b with
  | .str x, .str y => !decide (y < x)
  | pa, pb =>
    match toNumber pa, toNumber pb with
    | some x, some y => decide (x ≤ y)
    | _, _ => false

/-- JavaScript `>`. -/
def jsGt (E : Externals) (a b : JSVal) : Bool := jsLt E b a

/-- JavaScript `>=`. -/
def jsGe (E : Externals) (a b : JSVal) : Bool := jsLe E b a

/-- JavaScript `===` as used by the literal-equality branch of
`parseQueryCondition`. That branch only ever compares against primitive
condition values (objects are routed to the nested-condition branch, `null`
via falsiness), so object operands never reach `===` there; two object
operands would compare by reference identity, which distinct model values
never share, hence the catch-all is `false`. -/
def jsStrictEq : JSVal → JSVal → Bool
  | .undef, .undef => true
  | .null, .null => true
  | .bool a, .bool b => a == b
  | .num a, .num b => a == b
  | .str a, .str b => a == b
  | _, _ => false

mutual

/-- The `deep-equal` collaborator with `{strict: true}` (spec §6): structural
equality with strict type discrimination, Dates compared by time value,
RegExps by source, arrays element-wise in order, objects by key set
(order-insensitive) and value-wise deep equality. -/
def deepEqual : JSVal → JSVal → Bool
  | .undef, .undef => true
  | .null, .null => true
  | .bool a, .bool b => a == b
  | .num a, .num b => a == b
  | .str a, .str b => a == b
  | .date a, .date b => a == b
  | .regex a, .regex b => a == b
  | .arr xs, .arr ys => deepEqualList xs ys
  | .obj fs, .obj gs => fs.length == gs.length && deepEqualFields fs gs
  | _, _ => false
termination_by structural a _ => a

/-- Element-wise deep equality of arrays (order-sensitive). -/
def deepEqualList : List JSVal → List JSVal → Bool
  | [], [] => true
  | x :: xs, y :: ys => deepEqual x y && deepEqualList xs ys
  | _, _ => false
termination_by structural xs _ => xs

/-- Every field of the first object is present in the second with a deeply
equal value (with the key-count check done by the caller, this is key-set
equality for duplicate-free field lists). -/
def deepEqualFields : List (String × JSVal) → List (String × JSVal) → Bool
  | [], _ => true
  | (k, v) :: rest, gs =>
    (match findField gs k with
     | some w => deepEqual v w
     | none => false) && deepEqualFields rest gs
termination_by structural fs _ => fs

end

/-- Compiled predicates: pure boolean tests over one item (spec §3). -/
abbrev Pred := JSVal → Bool

/-- The sixteen recognized operator keys, in the order the source's
`isCondition` enumerates them. -/
def conditionKeys : List String :=
  ["$less", "$lessEqual", "$greater", "$greaterEqual", "$equal", "$not",
   "$dateBefore", "$dateAfter", "$or", "$nor", "$and", "$in", "$notIn",
   "$contains", "$notContains", "$match"]

/-- Embeds `isCondition(arg)`: a truthy value of `typeof` "object" having at
least one of the sixteen recognized keys (`key in arg` probes own and
inherited properties; arrays, Dates and RegExps carry no `$`-named
properties, so only plain objects can qualify). -/
def isCondition (arg : JSVal) : Bool :=
  match arg with
  | .obj fields => conditionKeys.any (fun key => fields.any (fun kv => kv.1 == key))
  | _ => false

/-- Embeds `includes(arr, value)`. For a string haystack this is
`String.prototype.includes` after ToString-coercing the needle (a boolean) —
except that a RegExp needle makes `String.prototype.includes` throw a
TypeError; for an array haystack it is `Array.prototype.find` with strict
deep equality, which returns the **matched element itself** (or
`undefined`), not a boolean — the call sites coerce the result. Any other
haystack makes `.find` throw. A thrown TypeError is modelled as `none`; it
propagates through every call site (past any negation) to a does-not-match
result, per spec §7. -/
def includes (E : Externals) (arrV value : JSVal) : Option JSVal :=
  match arrV with
  | .str s =>
    match value with
    | .regex _ => none
    | _ => some (.bool (strContains s (jsToString E value)))
  | .arr xs => some ((xs.find? (fun item => deepEqual item value)).getD .undef)
  | _ => none

/-- A call `includes(...)` read in a positive boolean position (`$in`, the
`$contains` membership test): a throw is a does-not-match result. -/
def includesTruthy (E : Externals) (arrV value : JSVal) : Bool :=
  match includes E arrV value with
  | some r => truthy r
  | none => false

/-- A call `!includes(...)` (`$notIn`, the `$notContains` membership test):
the negation applies only to a returned value — a throw still propagates to
a does-not-match result, it is not negated. -/
def includesNotTruthy (E : Externals) (arrV value : JSVal) : Bool :=
  match includes E arrV value with
  | some r => !truthy r
  | none => false

/-- Embeds the `$contains` predicate body: for an array or string field value,
a sequence operand requires every operand element to be `includes`-found, a
single operand is `includes`-found directly; any other field type yields
false. -/
def containsTest (E : Externals) (cv v : JSVal) : Bool :=
  match v with
  | .arr xs =>
    match cv with
    | .arr cs => cs.all (fun cond => includesTruthy E (.arr xs) cond)
    | _ => includesTruthy E (.arr xs) cv
  | .str s =>
    match cv with
    | .arr cs => cs.all (fun cond => includesTruthy E (.str s) cond)
    | _ => includesTruthy E (.str s) cv
  | _ => false

/-- Embeds the `$notContains` predicate body: the same structure as
`containsTest` with each `includes` test negated — and the same final
`return false` for a field value that is neither an array nor a string. -/
def notContainsTest (E : Externals) (cv v : JSVal) : Bool :=
  match v with
  | .arr xs =>
    match cv with
    | .arr cs => cs.all (fun cond => includesNotTruthy E (.arr xs) cond)
    | _ => includesNotTruthy E (.arr xs) cv
  | .str s =>
    match cv with
    | .arr cs => cs.all (fun cond => includesNotTruthy E (.str s) cond)
    | _ => includesNotTruthy E (.str s) cv
  | _ => false

/-- Embeds the `$dateBefore` predicate body (`cv` is the operand already
compile-time normalized from a Date to its timestamp): a Date field value is
replaced by its time value, a string field value by
`new Date(value).getTime()` (NaN — `none` — makes `<` false), anything else
is compared as-is. -/
def dateBeforeTest (E : Externals) (cv v : JSVal) : Bool :=
  match v with
  | .date t => jsLt E (.num t) cv
  | .str s =>
    match E.parseDate s with
    | some t => jsLt E (.num t) cv
    | none => false
  | _ => jsLt E v cv

/-- Embeds the `$dateAfter` predicate body, mirroring `dateBeforeTest` with
`>`. -/
def dateAfterTest (E : Externals) (cv v : JSVal) : Bool :=
  match v with
  | .date t => jsGt E (.num t) cv
  | .str s =>
    match E.parseDate s with
    | some t => jsGt E (.num t) cv
    | none => false
  | _ => jsGt E v cv

/-- Embeds the `$match` predicate body: a string operand is compiled as
`new RegExp(s)` (source `s`, default flags) at parse time, a RegExp operand
is used directly; the field value is ToString-coerced by
`RegExp.prototype.test`. Any other operand makes `.test` throw in
JavaScript; per spec §7 that is modelled as a does-not-match result. -/
def matchTest (E : Externals) (cv v : JSVal) : Bool :=
  match cv with
  | .str pat => E.regexTest pat (jsToString E v)
  | .regex src => E.regexTest src (jsToString E v)
  | _ => false

/-- The predicates a string condition contributes: `for … in` over a string
iterates its index keys, and each character entry lands in the
literal-equality branch of `parseQueryCondition` (an index key is never a
logical key, and a one-character string is neither an operator condition nor
an object). -/
def strIndexPreds (s : String) : List Pred :=
  (List.range s.length).map (fun i =>
    fun item =>
      jsStrictEq (getField item (toString i))
        (match s.toList.get? i with
         | some c => .str (toString c)
         | none => .undef))

/-- The thirteen non-recursive (leaf) operator dispatches of
`parseCondition`'s if/else chain, in source order. The three field-scoped
logical operators (`$or`/`$and`/`$nor`), which sit between `$dateAfter` and
`$in` in the source's chain, are tested in `pcOne` below; since the chain is
a sequence of mutually exclusive string-equality tests, hoisting them out
preserves the dispatch exactly. -/
def pcLeaf (E : Externals) (propName conditionKey : String) (conditionValue : JSVal) :
    List Pred :=
  if conditionKey == "$less" then
    [fun item => jsLt E (getField item propName) conditionValue]
  else if conditionKey == "$greater" then
    [fun item => jsGt E (getField item propName) conditionValue]
  else if conditionKey == "$lessEqual" then
    [fun item => jsLe E (getField item propName) conditionValue]
  else if conditionKey == "$greaterEqual" then
    [fun item => jsGe E (getField item propName) conditionValue]
  else if conditionKey == "$not" then
    [fun item => !deepEqual (getField item propName) conditionValue]
  else if conditionKey == "$equal" then
    [fun item => deepEqual (getField item propName) conditionValue]
  else if conditionKey == "$dateBefore" then
    let cv :=
      match conditionValue with
      | .date t => JSVal.num t
      | v => v
    [fun item => dateBeforeTest E cv (getField item propName)]
  else if conditionKey == "$dateAfter" then
    let cv :=
      match conditionValue with
      | .date t => JSVal.num t
      | v => v
    [fun item => dateAfterTest E cv (getField item propName)]
  else if conditionKey == "$in" then
    [fun item => includesTruthy E conditionValue (getField item propName)]
  else if conditionKey == "$notIn" then
    [fun item => includesNotTruthy E conditionValue (getField item propName)]
  else if conditionKey == "$contains" then
    [fun item => containsTest E conditionValue (getField item propName)]
  else if conditionKey == "$notContains" then
    [fun item => notContainsTest E conditionValue (getField item propName)]
  else if conditionKey == "$match" then
    [fun item => matchTest E conditionValue (getField item propName)]
  else []

mutual

/-- Embeds `parseCondition(propName, condition, filterPredicates)`, returning
the predicates it appends. The `for … in` walk only ever meets operator keys
on a plain object (index keys of arrays or strings are never `$`-named), so
non-object conditions contribute nothing. -/
def parseCondition (E : Externals) (propName : String) : JSVal → List Pred
  | .obj entries => pcEntries E propName entries
  | _ => []
termination_by structural condition => condition

/-- The `for … in` walk of `parseCondition`: operators with an `undefined`
operand are skipped (`continue`). -/
def pcEntries (E : Externals) (propName : String) : List (String × JSVal) → List Pred
  | [] => []
  | (conditionKey, conditionValue) :: rest =>
    (if jsStrictEq conditionValue .undef then []
     else pcOne E propName conditionKey conditionValue) ++ pcEntries E propName rest
termination_by structural entries => entries

/-- One recognized-operator dispatch of `parseCondition`: the three
field-scoped logical operators recurse over their branch list; every other
key is a leaf dispatch (`pcLeaf`). -/
def pcOne (E : Externals) (propName conditionKey : String) (conditionValue : JSVal) :
    List Pred :=
  if conditionKey == "$or" then
    match conditionValue with
    | .arr branches =>
      let conditions := pcBranches E propName branches
      [fun item => conditions.any (fun predicate => predicate item)]
    | _ =>
      -- `.forEach` on a non-array operand throws in JavaScript at parse
      -- time, aborting the whole match; spec §7 reads that throw as a
      -- does-not-match result, modelled as a constantly false predicate
      -- (likewise for `$and` and `$nor` below).
      [fun _ => false]
  else if conditionKey == "$and" then
    match conditionValue with
    | .arr branches =>
      let conditions := pcBranches E propName branches
      [fun item => conditions.all (fun predicate => predicate item)]
    | _ => [fun _ => false]
  else if conditionKey == "$nor" then
    match conditionValue with
    | .arr branches =>
      let conditions := pcBranches E propName branches
      [fun item => !conditions.any (fun predicate => predicate item)]
    | _ => [fun _ => false]
  else pcLeaf E propName conditionKey conditionValue
termination_by structural conditionValue

/-- `conditionValue.forEach((c) => parseCondition(propName, c, conditions))`
over a field-scoped logical operator's branch list: all branches' predicates
are appended into one flat list. -/
def pcBranches (E : Externals) (propName : String) : List JSVal → List Pred
  | [] => []
  | c :: rest => parseCondition E propName c ++ pcBranches E propName rest
termination_by structural l => l

end

mutual

/-- Embeds `parseQueryCondition(condition)`: the `if (!condition) return []`
early exit makes every falsy condition (absent, `null`, `false`, `0`, the
empty string) compile to the empty predicate list; otherwise the condition's
keys are walked in order (`for … in`: an object yields its field names, an
array — or a nonempty string — its index keys; primitives, Dates and RegExps
have no enumerable own keys, so they also yield the empty list, merged here
into the per-constructor dispatch). -/
def parseQueryCondition (E : Externals) : JSVal → List Pred
  | .obj fields => pqcFields E fields
  | .arr xs => pqcArrFields E 0 xs
  | .str s => if s == "" then [] else strIndexPreds s
  | _ => []
termination_by structural condition => condition

/-- The `for … in` walk of `parseQueryCondition` over an object's fields. -/
def pqcFields (E : Externals) : List (String × JSVal) → List Pred
  | [] => []
  | (keyOrPropName, conditionValue) :: rest =>
    pqcKey E keyOrPropName conditionValue ++ pqcFields E rest
termination_by structural fields => fields

/-- The `for … in` walk of `parseQueryCondition` over an array condition's
index keys ("0", "1", …). -/
def pqcArrFields (E : Externals) (i : Nat) : List JSVal → List Pred
  | [] => []
  | v :: rest => pqcKey E (toString i) v ++ pqcArrFields E (i + 1) rest
termination_by structural l => l

/-- The per-key dispatch of `parseQueryCondition`: the three document-level
logical operators; otherwise an operator condition goes to `parseCondition`;
a remaining truthy object value is a nested condition compiled recursively
(the self-call to `parseQueryCondition` is unfolded by one step — see
`pqcKey_nested`) and guarded by a field-presence check; anything else is a
strict-equality literal. -/
def pqcKey (E : Externals) (keyOrPropName : String) (conditionValue : JSVal) : List Pred :=
  if keyOrPropName == "$or" || keyOrPropName == "$nor" || keyOrPropName == "$and" then
    match conditionValue with
    | .arr filterConditions =>
      let conditions := pqcBranches E filterConditions
      if keyOrPropName == "$and" then
        [fun item => conditions.all (fun fnArray => fnArray.all (fun fn => fn item))]
      else if keyOrPropName == "$or" then
        [fun item => conditions.any (fun fnArray => fnArray.all (fun fn => fn item))]
      else
        [fun item => !conditions.any (fun fnArray => fnArray.all (fun fn => fn item))]
    | _ =>
      -- `.map` on a non-array operand throws in JavaScript at parse time,
      -- aborting the whole match; spec §7 reads that throw as a
      -- does-not-match result, modelled as a constantly false predicate.
      [fun _ => false]
  else if isCondition conditionValue then
    parseCondition E keyOrPropName conditionValue
  else if typeofStr conditionValue == "object" && truthy conditionValue then
    let subFilterPredicates :=
      match conditionValue with
      | .obj fields => pqcFields E fields
      | .arr xs => pqcArrFields E 0 xs
      | _ => []
    [fun item =>
      if jsStrictEq (getField item keyOrPropName) .undef
          || jsStrictEq (getField item keyOrPropName) .null then false
      else subFilterPredicates.all (fun fn => fn (getField item keyOrPropName))]
  else
    [fun item => jsStrictEq (getField item keyOrPropName) conditionValue]
termination_by structural conditionValue

/-- `filterConditions.map(parseQueryCondition)` over a logical operator's
branch list. -/
def pqcBranches (E : Externals) : List JSVal → List (List Pred)
  | [] => []
  | c :: rest => parseQueryCondition E c :: pqcBranches E rest
termination_by structural l => l

end

/-- Embeds `matchQueryCondition(data, condition)`. -/
def matchQueryCondition (E : Externals) (data condition : JSVal) : Bool :=
  (parseQueryCondition E condition).all (fun fn => fn data)

/-- Embeds `query(condition)`: compile once, return the reusable AND-filter. -/
def query (E : Externals) (condition : JSVal) : JSVal → Bool :=
  let arr := parseQueryCondition E condition
  fun value => arr.all (fun fn => fn value)

/-- A concrete host environment used for closed instantiations:
`parseDate` parses the one ISO date literal exercised below (any other string
is an invalid date, i.e. NaN); `regexTest` interprets a pattern free of
regular-expression metacharacters, for which `RegExp.prototype.test` is
exactly a substring search; `dateToString` is one fixed host rendering. -/
def E0 : Externals :=
  ⟨fun s => if s == "1970-01-02" then some 86400000 else none,
   fun pat text => strContains text pat,
   fun t => "Date(" ++ toString t ++ ")"⟩

/-- The number of predicates an operator-condition object contributes: one
per recognized operator key whose operand is defined (claim C4). -/
def opCount : JSVal → Nat
  | .obj entries =>
    entries.countP (fun e => !jsStrictEq e.2 .undef && conditionKeys.contains e.1)
  | _ => 0

/-- The number of predicates a single top-level condition key contributes. -/
def keyContribution (k : String) (v : JSVal) : Nat :=
  if k == "$or" || k == "$nor" || k == "$and" then 1
  else if isCondition v then opCount v
  else 1

/-- Modelled from the spec (§4.2, claim C1): the branch-as-AND reading of a
field-scoped `$or` — the operand is a sequence of operator conditions for the
same field, and the emitted predicate passes iff at least one branch's
implicit AND of its own operator predicates holds. -/
def specFieldScopedOr (E : Externals) (propName : String) (branches : List JSVal)
    (item : JSVal) : Bool :=
  branches.any (fun b => (parseCondition E propName b).all (fun p => p item))

/-- Modelled from the spec (§4.2, claim C6): normalization of either side of
`$dateBefore`/`$dateAfter` to a numeric timestamp — a date value yields its
time, a number is already a timestamp, a string is parsed as a date. -/
def specDateTimestamp (E : Externals) : JSVal → Option Int
  | .date t => some t
  | .num n => some n
  | .str s => E.parseDate s
  | _ => none

/-- Modelled from the spec (claim C6): `$dateBefore` as the claim states it —
normalize both sides to timestamps and compare with `<`. -/
def specDateBefore (E : Externals) (operand fieldValue : JSVal) : Bool :=
  match specDateTimestamp E fieldValue, specDateTimestamp E operand with
  | some a, some b => decide (a < b)
  | _, _ => false

/-! ### Helper lemmas -/

theorem isCondition_of_mem {fields : List (String × JSVal)} {k : String} {w : JSVal}
    (hmem : (k, w) ∈ fields) (hk : k ∈ conditionKeys) :
    isCondition (.obj fields) = true := by
  simp only [isCondition, List.any_eq_true]
  exact ⟨k, hk, ⟨(k, w), hmem, by simp⟩⟩

theorem deepEqual_undef_iff (c : JSVal) : deepEqual c .undef = true ↔ c = .undef := by
  cases c <;> simp [deepEqual]

theorem deepEqual_undef_left {w : JSVal} (h : w ≠ JSVal.undef) :
    deepEqual .undef w = false := by
  cases w <;> simp_all [deepEqual]

theorem find_undef_getD_falsy (cs : List JSVal) :
    truthy ((cs.find? (fun c => deepEqual c JSVal.undef)).getD .undef) = false := by
  induction cs with
  | nil => rfl
  | cons c rest ih =>
    by_cases h : deepEqual c JSVal.undef = true
    · have hc : c = JSVal.undef := (deepEqual_undef_iff c).mp h
      subst hc
      simp [List.find?_cons, h, truthy]
    · have hfalse : deepEqual c JSVal.undef = false := by
        cases hh : deepEqual c JSVal.undef
        · rfl
        · exact absurd hh h
      simp only [List.find?_cons, hfalse] at ih ⊢
      exact ih

theorem includesTruthy_arr_undef (E : Externals) (cs : List JSVal) :
    includesTruthy E (.arr cs) .undef = false := by
  simp [includesTruthy, includes, find_undef_getD_falsy]

theorem includesNotTruthy_arr_undef (E : Externals) (cs : List JSVal) :
    includesNotTruthy E (.arr cs) .undef = true := by
  simp [includesNotTruthy, includes, find_undef_getD_falsy]

theorem jsLt_undef_left (E : Externals) (b : JSVal) : jsLt E .undef b = false := by
  cases h : toPrimitiveNum E b <;> simp [jsLt, toPrimitiveNum, toNumber, h]

theorem jsLt_undef_right (E : Externals) (a : JSVal) : jsLt E a .undef = false := by
  cases h : toPrimitiveNum E a
  case str s =>
    simp only [jsLt, toPrimitiveNum, toNumber, h]
    cases strToNumber s <;> simp
  all_goals simp [jsLt, toPrimitiveNum, toNumber, h]

theorem jsLe_undef_left (E : Externals) (b : JSVal) : jsLe E .undef b = false := by
  cases h : toPrimitiveNum E b <;> simp [jsLe, toPrimitiveNum, toNumber, h]

theorem jsLe_undef_right (E : Externals) (a : JSVal) : jsLe E a .undef = false := by
  cases h : toPrimitiveNum E a
  case str s =>
    simp only [jsLe, toPrimitiveNum, toNumber, h]
    cases strToNumber s <;> simp
  all_goals simp [jsLe, toPrimitiveNum, toNumber, h]

theorem jsLt_num_num (E : Externals) (a b : Int) :
    jsLt E (.num a) (.num b) = decide (a < b) := by
  simp [jsLt, toPrimitiveNum, toNumber]

theorem pcBranches_any (E : Externals) (f : String) (bs : List JSVal) (item : JSVal) :
    (pcBranches E f bs).any (fun p => p item)
      = bs.any (fun b => (parseCondition E f b).any (fun p => p item)) := by
  induction bs with
  | nil => rfl
  | cons b rest ih => simp [pcBranches, List.any_append, ih]

theorem pcBranches_all (E : Externals) (f : String) (bs : List JSVal) (item : JSVal) :
    (pcBranches E f bs).all (fun p => p item)
      = bs.all (fun b => (parseCondition E f b).all (fun p => p item)) := by
  induction bs with
  | nil => rfl
  | cons b rest ih => simp [pcBranches, List.all_append, ih]

theorem match_single (E : Externals) (item : JSVal) (f : String) (v : JSVal) :
    matchQueryCondition E item (.obj [(f, v)]) = (pqcKey E f v).all (fun fn => fn item) := by
  simp [matchQueryCondition, parseQueryCondition, pqcFields]

/-- Restores the source's shape for the nested-condition branch: the inlined
one-step unfolding in `pqcKey` applies exactly the recursively compiled
`parseQueryCondition` predicates to the field's value. -/
theorem pqcKey_nested (E : Externals) (f : String) (v : JSVal) (item : JSVal)
    (h1 : f ≠ "$or") (h2 : f ≠ "$nor") (h3 : f ≠ "$and")
    (hobj : typeofStr v = "object") (htr : truthy v = true)
    (hc : isCondition v = false) :
    (pqcKey E f v).all (fun fn => fn item)
      = (if jsStrictEq (getField item f) .undef || jsStrictEq (getField item f) .null then false
         else (parseQueryCondition E v).all (fun fn => fn (getField item f))) := by
  have hor : (f == "$or") = false := beq_eq_false_iff_ne.mpr h1
  have hnor : (f == "$nor") = false := beq_eq_false_iff_ne.mpr h2
  have hand : (f == "$and") = false := beq_eq_false_iff_ne.mpr h3
  cases v
  case null => simp [truthy] at htr
  case date t => simp [pqcKey, parseQueryCondition, typeofStr, truthy, hor, hnor, hand, hc]
  case regex s => simp [pqcKey, parseQueryCondition, typeofStr, truthy, hor, hnor, hand, hc]
  case arr xs => simp [pqcKey, parseQueryCondition, typeofStr, truthy, hor, hnor, hand, hc]
  case obj fields => simp [pqcKey, parseQueryCondition, typeofStr, truthy, hor, hnor, hand, hc]
  all_goals simp [typeofStr] at hobj

theorem jsStrictEq_undef {w : JSVal} (h : w ≠ JSVal.undef) :
    jsStrictEq w .undef = false := by
  cases w <;> simp_all [jsStrictEq]

theorem jsGt_num_num (E : Externals) (a b : Int) :
    jsGt E (.num a) (.num b) = decide (a > b) := by
  simp [jsGt, jsLt_num_num]

/-- Restores the source's shape for the operator-condition branch: when
`isCondition` accepts the value and the key is not a document-level logical
operator, `pqcKey` delegates to `parseCondition`. -/
theorem pqcKey_opcond (E : Externals) (f : String) (v : JSVal)
    (h1 : f ≠ "$or") (h2 : f ≠ "$nor") (h3 : f ≠ "$and")
    (hc : isCondition v = true) :
    pqcKey E f v = parseCondition E f v := by
  have hor : (f == "$or") = false := beq_eq_false_iff_ne.mpr h1
  have hnor : (f == "$nor") = false := beq_eq_false_iff_ne.mpr h2
  have hand : (f == "$and") = false := beq_eq_false_iff_ne.mpr h3
  cases v
  case obj fields => simp [pqcKey, parseCondition, hor, hnor, hand, hc]
  all_goals exact absurd hc (by simp [isCondition])

theorem pcOne_length (E : Externals) (f k : String) (cv : JSVal) :
    (pcOne E f k cv).length = if conditionKeys.contains k then 1 else 0 := by
  by_cases hm : k ∈ conditionKeys
  · fin_cases hm <;> cases cv <;> simp [pcOne, pcLeaf, conditionKeys]
  · simp only [conditionKeys, List.mem_cons, List.not_mem_nil, or_false] at hm
    push_neg at hm
    obtain ⟨n1, n2, n3, n4, n5, n6, n7, n8, n9, n10, n11, n12, n13, n14, n15, n16⟩ := hm
    cases cv <;>
      simp [pcOne, pcLeaf, conditionKeys, n1, n2, n3, n4, n5, n6, n7, n8, n9, n10,
        n11, n12, n13, n14, n15, n16]

theorem pcEntries_length (E : Externals) (f : String) (entries : List (String × JSVal)) :
    (pcEntries E f entries).length
      = entries.countP (fun e => !jsStrictEq e.2 .undef && conditionKeys.contains e.1) := by
  induction entries with
  | nil => rfl
  | cons e rest ih =>
    obtain ⟨k, cv⟩ := e
    cases hu : jsStrictEq cv .undef
    · simp [pcEntries, hu, List.countP_cons, ih, pcOne_length]
      split <;> omega
    · simp [pcEntries, hu, List.countP_cons, ih, pcOne_length]

theorem parseCondition_length (E : Externals) (f : String) (v : JSVal) :
    (parseCondition E f v).length = opCount v := by
  cases v <;> simp [parseCondition, opCount, pcEntries_length]

theorem pqcKey_length (E : Externals) (f : String) (v : JSVal) :
    (pqcKey E f v).length = keyContribution f v := by
  by_cases h1 : f = "$or"
  · subst h1; cases v <;> simp [pqcKey, keyContribution]
  by_cases h2 : f = "$nor"
  · subst h2; cases v <;> simp [pqcKey, keyContribution]
  by_cases h3 : f = "$and"
  · subst h3; cases v <;> simp [pqcKey, keyContribution]
  have hor : (f == "$or") = false := beq_eq_false_iff_ne.mpr h1
  have hnor : (f == "$nor") = false := beq_eq_false_iff_ne.mpr h2
  have hand : (f == "$and") = false := beq_eq_false_iff_ne.mpr h3
  by_cases hc : isCondition v = true
  · rw [pqcKey_opcond E f v h1 h2 h3 hc, parseCondition_length]
    simp [keyContribution, hor, hnor, hand, hc]
  · have hcf : isCondition v = false := by
      cases hh : isCondition v
      · rfl
      · exact absurd hh hc
    cases v <;>
      simp [pqcKey, keyContribution, hor, hnor, hand, hcf, typeofStr, truthy]

theorem pqcFields_length (E : Externals) (fields : List (String × JSVal)) :
    (pqcFields E fields).length
      = (fields.map (fun kv => keyContribution kv.1 kv.2)).sum := by
  induction fields with
  | nil => rfl
  | cons kv rest ih =>
    obtain ⟨k, v⟩ := kv
    simp [pqcFields, pqcKey_length, ih]

/-! ### Claim theorems -/

/-- C7: for every item, `matchQueryCondition` with the empty condition object
returns true, and `parseQueryCondition` applied to an absent (`undefined`) or
`null` condition returns the empty predicate sequence, so the filter built by
`query` accepts every item (vacuous truth of an empty predicate list). -/
theorem C7_empty_condition (E : Externals) :
    parseQueryCondition E .undef = [] ∧ parseQueryCondition E .null = []
  ∧ (∀ item, matchQueryCondition E item (.obj []) = true)
  ∧ (∀ item, query E .undef item = true)
  ∧ (∀ item, query E .null item = true) :=
  ⟨rfl, rfl, fun _ => rfl, fun _ => rfl, fun _ => rfl⟩

/-- C9: a field's condition value is classified as an operator condition
**iff** it is a (non-null, truthy) plain object with at least one of the
sixteen recognized operator keys present — presence alone suffices, even
when the key maps to `undefined`, and no other value (primitive, `null`,
array, Date, RegExp, or an object without a recognized key) is so
classified; an operator key with an `undefined` operand emits no predicate,
so a field condition whose every recognized operator has an `undefined`
operand (e.g. `{age: {$equal: undefined}}`) emits zero predicates and
`matchQueryCondition` returns true for every item. -/
theorem C9_undefined_operands (E : Externals) :
    (∀ v, isCondition v = true
       ↔ ∃ fields k w, v = JSVal.obj fields ∧ (k, w) ∈ fields ∧ k ∈ conditionKeys)
  ∧ isCondition (.obj [("$equal", JSVal.undef)]) = true
  ∧ (∀ f entries, (∀ e ∈ entries, e.1 ∈ conditionKeys → e.2 = JSVal.undef) →
       parseCondition E f (.obj entries) = [])
  ∧ parseQueryCondition E (.obj [("age", .obj [("$equal", JSVal.undef)])]) = []
  ∧ (∀ item,
       matchQueryCondition E item (.obj [("age", .obj [("$equal", JSVal.undef)])]) = true) := by
  refine ⟨?_, rfl, ?_, rfl, fun _ => rfl⟩
  · intro v
    constructor
    · intro h
      cases v
      case obj fields =>
        simp only [isCondition, List.any_eq_true] at h
        obtain ⟨key, hkey, kv, hmem, hbeq⟩ := h
        obtain ⟨k, w⟩ := kv
        have hk : k = key := by simpa using hbeq
        subst hk
        exact ⟨fields, k, w, rfl, hmem, hkey⟩
      all_goals exact absurd h (by simp [isCondition])
    · rintro ⟨fields, k, w, rfl, hmem, hk⟩
      exact isCondition_of_mem hmem hk
  · intro f entries hund
    rw [parseCondition]
    induction entries with
    | nil => rfl
    | cons e rest ih =>
      obtain ⟨k, cv⟩ := e
      have hrest := ih (fun e he => hund e (List.mem_cons_of_mem _ he))
      by_cases hu : jsStrictEq cv .undef = true
      · simp [pcEntries, hu, hrest]
      · have hcv : cv ≠ JSVal.undef := by
          intro hh
          subst hh
          exact hu rfl
        have hk : k ∉ conditionKeys := by
          intro hkmem
          exact hcv (hund (k, cv) (List.mem_cons_self _ _) hkmem)
        have hcont : conditionKeys.contains k = false := by
          cases hc : conditionKeys.contains k
          · rfl
          · obtain ⟨a, ha, hbeq⟩ := List.contains_iff_exists_mem_beq.mp hc
            have : k = a := by simpa using hbeq
            subst this
            exact absurd ha hk
        have hone : (pcOne E f k cv).length = 0 := by
          rw [pcOne_length, hcont]
          rfl
        have hone2 : pcOne E f k cv = [] := List.length_eq_zero.mp hone
        have hub : jsStrictEq cv JSVal.undef = false := by
          cases hb : jsStrictEq cv JSVal.undef
          · rfl
          · exact absurd hb hu
        simp [pcEntries, hub, hone2, hrest]

/-- C9 witness: the iff in both directions (a mixed-key object is classified,
an object without recognized keys is not), the zero-predicate property with
an unrecognized defined key alongside, and the always-match behavior. -/
theorem C9_undefined_operands_witness :
    isCondition (.obj [("present", .num 1), ("$in", JSVal.undef)]) = true
  ∧ isCondition (.obj [("plain", .num 1)]) = false
  ∧ parseCondition E0 "age" (.obj [("$equal", JSVal.undef), ("other", .num 7)]) = []
  ∧ matchQueryCondition E0 (.obj [("x", .num 1)])
      (.obj [("age", .obj [("$equal", JSVal.undef)])]) = true := by
  refine ⟨?_, ?_, ?_, (C9_undefined_operands E0).2.2.2.2 (.obj [("x", .num 1)])⟩
  · exact ((C9_undefined_operands E0).1 _).mpr
      ⟨[("present", .num 1), ("$in", JSVal.undef)], "$in", JSVal.undef, rfl,
        by simp, by decide⟩
  · cases hb : isCondition (.obj [("plain", JSVal.num 1)])
    · rfl
    · obtain ⟨fields, k, w, hobj, hmem, hk⟩ := ((C9_undefined_operands E0).1 _).mp hb
      have hfields : fields = [("plain", JSVal.num 1)] := by
        cases hobj
        rfl
      subst hfields
      have hkv : (k, w) = ("plain", JSVal.num 1) := by simpa using hmem
      have hkp : k = "plain" := congrArg Prod.fst hkv
      subst hkp
      exact absurd hk (by decide)
  · refine (C9_undefined_operands E0).2.2.1 "age" _ ?_
    intro e he
    rcases (by simpa using he :
        e = (("$equal", JSVal.undef) : String × JSVal) ∨ e = ("other", JSVal.num 7))
      with rfl | rfl
    · intro _
      rfl
    · intro hk
      exact absurd hk (by decide)

/-- C8: for a nested sub-document condition on a field (a truthy object value
that is not an operator condition), the emitted predicate returns false
whenever the item's field is `undefined` or `null` (JavaScript `===` checks),
and otherwise holds iff every recursively compiled sub-predicate holds
against the field's value. -/
theorem C8_nested (E : Externals) (f : String) (sfields : List (String × JSVal))
    (item : JSVal)
    (h1 : f ≠ "$or") (h2 : f ≠ "$nor") (h3 : f ≠ "$and")
    (hc : isCondition (.obj sfields) = false) :
    matchQueryCondition E item (.obj [(f, .obj sfields)])
      = (if jsStrictEq (getField item f) .undef || jsStrictEq (getField item f) .null
           then false
         else (parseQueryCondition E (.obj sfields)).all (fun fn => fn (getField item f))) := by
  rw [match_single]
  exact pqcKey_nested E f (.obj sfields) item h1 h2 h3 rfl rfl hc

/-- C8 witness: a nested condition on `user` applied to an item carrying and
to an item lacking that field. -/
theorem C8_nested_witness :
    matchQueryCondition E0 (.obj [("user", .obj [("age", .num 30)])])
      (.obj [("user", .obj [("age", .num 30)])])
      = (if jsStrictEq (getField (.obj [("user", .obj [("age", .num 30)])]) "user") .undef
             || jsStrictEq (getField (.obj [("user", .obj [("age", .num 30)])]) "user") .null
           then false
         else (parseQueryCondition E0 (.obj [("age", JSVal.num 30)])).all
           (fun fn => fn (getField (.obj [("user", .obj [("age", .num 30)])]) "user"))) :=
  C8_nested E0 "user" [("age", .num 30)] (.obj [("user", .obj [("age", .num 30)])])
    (by decide) (by decide) (by decide) (by decide)

/-- C10: the `$match` predicate tests the compiled pattern against the
ToString coercion of the field value; a missing field coerces to the
9-character string "undefined", so any pattern matching "undefined" (such as
"fine") succeeds on every item lacking the field. -/
theorem C10_match_undefined (E : Externals) (f p : String) (item : JSVal)
    (h1 : f ≠ "$or") (h2 : f ≠ "$nor") (h3 : f ≠ "$and")
    (hmiss : getField item f = JSVal.undef)
    (hp : E.regexTest p "undefined" = true) :
    jsToString E .undef = "undefined"
  ∧ matchQueryCondition E item (.obj [(f, .obj [("$match", .str p)])])
      = E.regexTest p (jsToString E (getField item f))
  ∧ matchQueryCondition E item (.obj [(f, .obj [("$match", .str p)])]) = true := by
  have hmain : matchQueryCondition E item (.obj [(f, .obj [("$match", .str p)])])
      = E.regexTest p (jsToString E (getField item f)) := by
    rw [match_single, pqcKey_opcond E f _ h1 h2 h3 (by simp [isCondition, conditionKeys])]
    simp [parseCondition, pcEntries, pcOne, pcLeaf, jsStrictEq, matchTest]
  refine ⟨rfl, hmain, ?_⟩
  rw [hmain, hmiss]
  exact hp

/-- C10 witness: `$match: "fine"` matches the empty item. -/
theorem C10_match_undefined_witness :
    matchQueryCondition E0 (.obj [])
      (.obj [("desc", .obj [("$match", .str "fine")])]) = true :=
  (C10_match_undefined E0 "desc" "fine" (.obj []) (by decide) (by decide) (by decide)
    rfl (by decide)).2.2

/-- C3: evaluation of the embedded code at the failing input — the `$in`
predicate rejects an item whose field value 0 deep-equals a candidate,
because `includes` returns `Array.prototype.find`'s result, the matched
element itself (here the falsy 0), and `$notIn` dually accepts it. -/
theorem C3_in_falsy_eval :
    matchQueryCondition E0 (.obj [("a", .num 0)])
      (.obj [("a", .obj [("$in", .arr [.num 0, .num 1])])]) = false
  ∧ matchQueryCondition E0 (.obj [("a", .num 0)])
      (.obj [("a", .obj [("$notIn", .arr [.num 0, .num 1])])]) = true
  ∧ deepEqual (.num 0) (.num 0) = true
  ∧ includes E0 (.arr [.num 0, .num 1]) (.num 0) = some (.num 0)
  ∧ truthy (.num 0) = false :=
  ⟨by decide, by decide, by decide, rfl, by decide⟩

/-- C4 counterexample: a condition document with exactly one top-level key
(`{age: {$greater: 1, $less: 9}}`) compiles to two predicates, not one — an
operator-condition key contributes one predicate per recognized operator
present, not one composite predicate. -/
theorem C4_cex :
    (parseQueryCondition E0
      (.obj [("age", .obj [("$greater", .num 1), ("$less", .num 9)])])).length = 2
  ∧ [("age", JSVal.obj [("$greater", JSVal.num 1), ("$less", JSVal.num 9)])].length = 1 :=
  ⟨by decide, rfl⟩

/-- C4 (amended): `parseQueryCondition` returns one predicate per logical,
nested-record, and literal top-level key, while an operator-condition key
contributes one predicate per recognized operator present with a defined
operand (`keyContribution`/`opCount`), so the total is the sum of per-key
contributions. -/
theorem C4_amended (E : Externals) (fields : List (String × JSVal)) :
    (parseQueryCondition E (.obj fields)).length
      = (fields.map (fun kv => keyContribution kv.1 kv.2)).sum
  ∧ (∀ v, keyContribution "$or" v = 1 ∧ keyContribution "$nor" v = 1
      ∧ keyContribution "$and" v = 1)
  ∧ (∀ f v, f ≠ "$or" → f ≠ "$nor" → f ≠ "$and" → isCondition v = true →
      keyContribution f v = opCount v)
  ∧ (∀ f v, f ≠ "$or" → f ≠ "$nor" → f ≠ "$and" → isCondition v = false →
      keyContribution f v = 1) := by
  refine ⟨by rw [parseQueryCondition]; exact pqcFields_length E fields, ?_, ?_, ?_⟩
  · intro v
    refine ⟨by simp [keyContribution], by simp [keyContribution], by simp [keyContribution]⟩
  · intro f v h1 h2 h3 hc
    simp [keyContribution, beq_eq_false_iff_ne.mpr h1, beq_eq_false_iff_ne.mpr h2,
      beq_eq_false_iff_ne.mpr h3, hc]
  · intro f v h1 h2 h3 hc
    simp [keyContribution, beq_eq_false_iff_ne.mpr h1, beq_eq_false_iff_ne.mpr h2,
      beq_eq_false_iff_ne.mpr h3, hc]

/-- C4 witness: the two-operator condition has contribution 2, and an
operator-condition key's contribution is its defined-operator count. -/
theorem C4_amended_witness :
    (parseQueryCondition E0
        (.obj [("age", .obj [("$greater", .num 1), ("$less", .num 9)])])).length
      = ([("age", JSVal.obj [("$greater", JSVal.num 1), ("$less", JSVal.num 9)])].map
          (fun kv => keyContribution kv.1 kv.2)).sum
  ∧ keyContribution "age" (.obj [("$greater", JSVal.num 1), ("$less", JSVal.num 9)])
      = opCount (.obj [("$greater", JSVal.num 1), ("$less", JSVal.num 9)]) :=
  ⟨(C4_amended E0 [("age", .obj [("$greater", .num 1), ("$less", .num 9)])]).1,
   (C4_amended E0 []).2.2.1 "age" (.obj [("$greater", JSVal.num 1), ("$less", JSVal.num 9)])
     (by decide) (by decide) (by decide) (by decide)⟩

/-- C1 counterexample: for the field-scoped `{f: {$or: [{$greater: 5, $less:
3}]}}` and the item `{f: 10}`, the compiled predicate passes although the
single branch's AND (`10 > 5 && 10 < 3`) fails — the code ORs the flattened
operator predicates, not the branches' ANDs. -/
theorem C1_cex :
    matchQueryCondition E0 (.obj [("f", .num 10)])
      (.obj [("f", .obj [("$or", .arr [.obj [("$greater", .num 5), ("$less", .num 3)]])])])
      = true
  ∧ specFieldScopedOr E0 "f" [.obj [("$greater", .num 5), ("$less", .num 3)]]
      (.obj [("f", .num 10)]) = false :=
  ⟨by decide, by decide⟩

/-- C1 (amended): the field-scoped logical operators flatten all branches'
operator predicates into one list; `$or` passes iff at least one predicate of
any branch holds, `$nor` iff none does (branch boundaries are not respected),
while `$and` — for which flattening and branch-as-AND coincide — passes iff
every branch's AND holds. -/
theorem C1_amended (E : Externals) (f : String) (bs : List JSVal) (item : JSVal)
    (h1 : f ≠ "$or") (h2 : f ≠ "$nor") (h3 : f ≠ "$and") :
    matchQueryCondition E item (.obj [(f, .obj [("$or", .arr bs)])])
      = bs.any (fun b => (parseCondition E f b).any (fun p => p item))
  ∧ matchQueryCondition E item (.obj [(f, .obj [("$and", .arr bs)])])
      = bs.all (fun b => (parseCondition E f b).all (fun p => p item))
  ∧ matchQueryCondition E item (.obj [(f, .obj [("$nor", .arr bs)])])
      = !(bs.any (fun b => (parseCondition E f b).any (fun p => p item))) := by
  refine ⟨?_, ?_, ?_⟩
  · rw [match_single, pqcKey_opcond E f _ h1 h2 h3 (by simp [isCondition, conditionKeys])]
    simp [parseCondition, pcEntries, pcOne, jsStrictEq, pcBranches_any]
  · rw [match_single, pqcKey_opcond E f _ h1 h2 h3 (by simp [isCondition, conditionKeys])]
    simp [parseCondition, pcEntries, pcOne, jsStrictEq, pcBranches_all]
  · rw [match_single, pqcKey_opcond E f _ h1 h2 h3 (by simp [isCondition, conditionKeys])]
    simp [parseCondition, pcEntries, pcOne, jsStrictEq, pcBranches_any]

/-- C1 witness: the flattened-OR semantics at the counterexample input. -/
theorem C1_amended_witness :
    matchQueryCondition E0 (.obj [("f", .num 10)])
      (.obj [("f", .obj [("$or", .arr [.obj [("$greater", .num 5), ("$less", .num 3)]])])])
      = [JSVal.obj [("$greater", JSVal.num 5), ("$less", JSVal.num 3)]].any
          (fun b => (parseCondition E0 "f" b).any (fun p => p (.obj [("f", .num 10)]))) :=
  (C1_amended E0 "f" [.obj [("$greater", .num 5), ("$less", .num 3)]]
    (.obj [("f", .num 10)]) (by decide) (by decide) (by decide)).1

/-- C2 counterexample: on a numeric field value (neither array nor string),
the `$contains` predicate and the `$notContains` predicate both return false
for the same operand — they are not complements over every field-type/operand
pairing. -/
theorem C2_cex :
    matchQueryCondition E0 (.obj [("t", .num 5)])
      (.obj [("t", .obj [("$contains", .str "x")])]) = false
  ∧ matchQueryCondition E0 (.obj [("t", .num 5)])
      (.obj [("t", .obj [("$notContains", .str "x")])]) = false :=
  ⟨by decide, by decide⟩

/-- C2 (amended): for a single (non-sequence) operand, `$notContains` is the
exact boolean negation of `$contains` on an array field value, and on a
string field value provided the operand is not a RegExp — a RegExp operand
makes `String.prototype.includes` throw a TypeError in both predicates,
which is a does-not-match result (spec §7), so both are false there; for a
sequence operand `$contains` requires every operand element to be contained
while `$notContains` requires none to be (both can be false when some but
not all are); for any other field type both predicates return false. -/
theorem C2_amended (E : Externals) :
    (∀ f cv, pcOne E f "$contains" cv
        = [fun item => containsTest E cv (getField item f)]
      ∧ pcOne E f "$notContains" cv
        = [fun item => notContainsTest E cv (getField item f)])
  ∧ (∀ cv v, (∀ xs, v ≠ JSVal.arr xs) → (∀ s, v ≠ JSVal.str s) →
       containsTest E cv v = false ∧ notContainsTest E cv v = false)
  ∧ (∀ cv xs, (∀ cs, cv ≠ JSVal.arr cs) →
       notContainsTest E cv (JSVal.arr xs) = !containsTest E cv (JSVal.arr xs))
  ∧ (∀ cv s, (∀ cs, cv ≠ JSVal.arr cs) → (∀ r, cv ≠ JSVal.regex r) →
       notContainsTest E cv (JSVal.str s) = !containsTest E cv (JSVal.str s))
  ∧ (∀ r s, containsTest E (JSVal.regex r) (JSVal.str s) = false
      ∧ notContainsTest E (JSVal.regex r) (JSVal.str s) = false)
  ∧ (∀ cs xs, containsTest E (JSVal.arr cs) (JSVal.arr xs)
        = cs.all (fun c => includesTruthy E (JSVal.arr xs) c)
      ∧ notContainsTest E (JSVal.arr cs) (JSVal.arr xs)
        = cs.all (fun c => includesNotTruthy E (JSVal.arr xs) c)) := by
  refine ⟨?_, ?_, ?_, ?_, ?_, ?_⟩
  · intro f cv
    constructor <;> (cases cv <;> simp [pcOne, pcLeaf])
  · intro cv v harr hstr
    cases v
    case arr xs => exact absurd rfl (harr xs)
    case str s => exact absurd rfl (hstr s)
    all_goals simp [containsTest, notContainsTest]
  · intro cv xs hcv
    cases cv
    case arr cs => exact absurd rfl (hcv cs)
    all_goals
      simp [containsTest, notContainsTest, includesTruthy, includesNotTruthy, includes]
  · intro cv s hcv hreg
    cases cv
    case arr cs => exact absurd rfl (hcv cs)
    case regex r => exact absurd rfl (hreg r)
    all_goals
      simp [containsTest, notContainsTest, includesTruthy, includesNotTruthy, includes]
  · intro r s
    constructor <;>
      simp [containsTest, notContainsTest, includesTruthy, includesNotTruthy, includes]
  · intro cs xs
    exact ⟨rfl, rfl⟩

/-- C2 witness: the single-operand complement on an array field and on a
string field, and the both-false RegExp-operand case on a string field. -/
theorem C2_amended_witness :
    notContainsTest E0 (.str "x") (.arr [.str "x"])
      = !containsTest E0 (.str "x") (.arr [.str "x"])
  ∧ notContainsTest E0 (.str "Java") (.str "JavaScript")
      = !containsTest E0 (.str "Java") (.str "JavaScript")
  ∧ containsTest E0 (.regex "x") (.str "abc") = false
  ∧ notContainsTest E0 (.regex "x") (.str "abc") = false :=
  ⟨(C2_amended E0).2.2.1 (.str "x") [.str "x"] (fun cs => by simp),
   (C2_amended E0).2.2.2.1 (.str "Java") "JavaScript" (fun cs => by simp)
     (fun r => by simp),
   ((C2_amended E0).2.2.2.2.1 "x" "abc").1,
   ((C2_amended E0).2.2.2.2.1 "x" "abc").2⟩

/-- C6 counterexample: with `{d: {$dateBefore: "1970-01-02"}}` on the item
`{d: 0}` the compiled predicate is false — the string operand is compared
raw, not normalized to a timestamp — although the spec's normalize-both-sides
reading (`specDateBefore`) yields true for the same operand and field
value. -/
theorem C6_cex :
    matchQueryCondition E0 (.obj [("d", .num 0)])
      (.obj [("d", .obj [("$dateBefore", .str "1970-01-02")])]) = false
  ∧ specDateBefore E0 (.str "1970-01-02") (.num 0) = true :=
  ⟨by decide, by decide⟩

/-- C6 (amended): only a Date operand is normalized (to its time value; a
numeric operand is already a timestamp, and a string operand is *not*
date-parsed); the field value is normalized from a Date or parsed from a
string (an unparseable string compares as NaN, i.e. false), and the two
timestamps are compared with `<` (`$dateBefore`) or `>` (`$dateAfter`). -/
theorem C6_amended (E : Externals) (f : String) (item : JSVal) (tb : Int)
    (h1 : f ≠ "$or") (h2 : f ≠ "$nor") (h3 : f ≠ "$and") :
    (∀ op, op = JSVal.date tb ∨ op = JSVal.num tb →
       matchQueryCondition E item (.obj [(f, .obj [("$dateBefore", op)])])
         = dateBeforeTest E (.num tb) (getField item f)
     ∧ matchQueryCondition E item (.obj [(f, .obj [("$dateAfter", op)])])
         = dateAfterTest E (.num tb) (getField item f))
  ∧ (∀ u, dateBeforeTest E (.num tb) (JSVal.date u) = decide (u < tb)
      ∧ dateBeforeTest E (.num tb) (JSVal.num u) = decide (u < tb)
      ∧ dateAfterTest E (.num tb) (JSVal.date u) = decide (u > tb)
      ∧ dateAfterTest E (.num tb) (JSVal.num u) = decide (u > tb))
  ∧ (∀ s, dateBeforeTest E (.num tb) (JSVal.str s)
        = (match E.parseDate s with
           | some u => decide (u < tb)
           | none => false)
      ∧ dateAfterTest E (.num tb) (JSVal.str s)
        = (match E.parseDate s with
           | some u => decide (u > tb)
           | none => false)) := by
  refine ⟨?_, ?_, ?_⟩
  · intro op hop
    constructor <;>
      (rw [match_single, pqcKey_opcond E f _ h1 h2 h3 (by simp [isCondition, conditionKeys])]
       rcases hop with rfl | rfl <;>
         simp [parseCondition, pcEntries, pcOne, pcLeaf, jsStrictEq])
  · intro u
    refine ⟨?_, ?_, ?_, ?_⟩ <;>
      simp [dateBeforeTest, dateAfterTest, jsLt_num_num, jsGt_num_num]
  · intro s
    constructor <;>
      (simp only [dateBeforeTest, dateAfterTest]
       cases E.parseDate s <;> simp [jsLt_num_num, jsGt_num_num])

/-- C6 witness: `$dateBefore` with a numeric operand on a Date field. -/
theorem C6_amended_witness :
    matchQueryCondition E0 (.obj [("d", .date 5)])
      (.obj [("d", .obj [("$dateBefore", .num 10)])])
      = dateBeforeTest E0 (.num 10) (getField (.obj [("d", .date 5)]) "d") :=
  ((C6_amended E0 "d" (.obj [("d", .date 5)]) 10 (by decide) (by decide) (by decide)).1
    (.num 10) (Or.inr rfl)).1

theorem pcOne_not_logical (E : Externals) (f k : String) (cv : JSVal)
    (hk1 : k ≠ "$or") (hk2 : k ≠ "$and") (hk3 : k ≠ "$nor") :
    pcOne E f k cv = pcLeaf E f k cv := by
  have h1 := beq_eq_false_iff_ne.mpr hk1
  have h2 := beq_eq_false_iff_ne.mpr hk2
  have h3 := beq_eq_false_iff_ne.mpr hk3
  cases cv <;> simp [pcOne, h1, h2, h3]

theorem neg_pcEntries_true (E : Externals) (f : String) (item : JSVal)
    (hitem : getField item f = JSVal.undef) (entries : List (String × JSVal))
    (hneg : ∀ e ∈ entries, (e.1 = "$not" ∧ e.2 ≠ JSVal.undef)
        ∨ (e.1 = "$notIn" ∧ ∃ cs, e.2 = JSVal.arr cs)) :
    (pcEntries E f entries).all (fun p => p item) = true := by
  induction entries with
  | nil => rfl
  | cons e rest ih =>
    obtain ⟨k, w⟩ := e
    have hrest := ih (fun e he => hneg e (List.mem_cons_of_mem _ he))
    rcases hneg (k, w) (List.mem_cons_self _ _) with ⟨hk, hw⟩ | ⟨hk, cs, hw⟩
    · have hk2 : k = "$not" := hk
      have hw2 : w ≠ JSVal.undef := hw
      subst hk2
      simp [pcEntries, jsStrictEq_undef hw2,
        pcOne_not_logical E f "$not" w (by decide) (by decide) (by decide), pcLeaf,
        List.all_append, hrest, hitem, deepEqual_undef_left hw2]
    · have hk2 : k = "$notIn" := hk
      have hw2 : w = JSVal.arr cs := hw
      subst hk2; subst hw2
      simp [pcEntries, jsStrictEq,
        pcOne_not_logical E f "$notIn" (JSVal.arr cs) (by decide) (by decide) (by decide),
        pcLeaf, List.all_append, hrest, hitem, includesNotTruthy_arr_undef]

/-- C5 counterexample: `{f: {$notContains: "x"}}` — a non-empty condition
consisting solely of a negative operator with a defined operand — returns
false on the empty item, because `$notContains` falls through to
`return false` when the (missing) field value is neither an array nor a
string. -/
theorem C5_cex :
    matchQueryCondition E0 (.obj [])
      (.obj [("f", .obj [("$notContains", .str "x")])]) = false
  ∧ getField (.obj []) "f" = JSVal.undef :=
  ⟨by decide, rfl⟩

/-- C5 (amended): on an item with no usable fields (every lookup yields
`undefined`), a condition built solely from `$not` (defined operand) and
`$notIn` (array operand) operator conditions matches — such predicates are
trivially true on a missing field — whereas a field condition consisting of a
single positive-style operator (`$less`, `$lessEqual`, `$greater`,
`$greaterEqual`, `$equal`, `$dateBefore`, `$dateAfter`, `$in`, `$contains` —
and also `$notContains`, despite it being a negative operator) with a defined
operand yields false. -/
theorem C5_amended (E : Externals) :
    (∀ item fields, (∀ k, getField item k = JSVal.undef) →
       (∀ kv ∈ fields,
          (kv.1 ≠ "$or" ∧ kv.1 ≠ "$nor" ∧ kv.1 ≠ "$and")
          ∧ ∃ entries, kv.2 = JSVal.obj entries ∧ entries ≠ []
              ∧ ∀ e ∈ entries, (e.1 = "$not" ∧ e.2 ≠ JSVal.undef)
                  ∨ (e.1 = "$notIn" ∧ ∃ cs, e.2 = JSVal.arr cs)) →
       matchQueryCondition E item (.obj fields) = true)
  ∧ (∀ item f k w, (∀ k2, getField item k2 = JSVal.undef) →
       f ≠ "$or" → f ≠ "$nor" → f ≠ "$and" →
       k ∈ ["$less", "$lessEqual", "$greater", "$greaterEqual", "$equal",
            "$dateBefore", "$dateAfter", "$in", "$contains", "$notContains"] →
       w ≠ JSVal.undef → (k = "$in" → ∃ cs, w = JSVal.arr cs) →
       matchQueryCondition E item (.obj [(f, .obj [(k, w)])]) = false) := by
  constructor
  · intro item fields hitem hall
    simp only [matchQueryCondition, parseQueryCondition]
    revert hall
    induction fields with
    | nil => intro hall; rfl
    | cons kv rest ih =>
      intro hall
      obtain ⟨f, v⟩ := kv
      obtain ⟨⟨hf1, hf2, hf3⟩, entries, hv, hne, hneg⟩ := hall (f, v) (List.mem_cons_self _ _)
      have hv2 : v = JSVal.obj entries := hv
      subst hv2
      have hres := ih (fun kv hkv => hall kv (List.mem_cons_of_mem _ hkv))
      obtain ⟨e0, es, rfl⟩ : ∃ e0 es, entries = e0 :: es := by
        cases entries
        · exact absurd rfl hne
        · exact ⟨_, _, rfl⟩
      obtain ⟨k0, w0⟩ := e0
      have hk0mem : k0 ∈ conditionKeys := by
        rcases hneg (k0, w0) (List.mem_cons_self _ _) with ⟨hk, _⟩ | ⟨hk, _⟩
        · have hk2 : k0 = "$not" := hk
          subst hk2; decide
        · have hk2 : k0 = "$notIn" := hk
          subst hk2; decide
      have hcond : isCondition (JSVal.obj ((k0, w0) :: es)) = true :=
        isCondition_of_mem (List.mem_cons_self _ _) hk0mem
      have hf1' : f ≠ "$or" := hf1
      have hf2' : f ≠ "$nor" := hf2
      have hf3' : f ≠ "$and" := hf3
      simp [pqcFields, List.all_append, hres,
        pqcKey_opcond E f _ hf1' hf2' hf3' hcond, parseCondition,
        neg_pcEntries_true E f item (hitem f) _ hneg]
  · intro item f k w hitem hf1 hf2 hf3 hk hw hin
    have hkc : k ∈ conditionKeys := by fin_cases hk <;> decide
    have hcond : isCondition (JSVal.obj [(k, w)]) = true :=
      isCondition_of_mem (List.mem_cons_self _ _) hkc
    rw [match_single, pqcKey_opcond E f _ hf1 hf2 hf3 hcond, parseCondition]
    fin_cases hk
    · simp [pcEntries, jsStrictEq_undef hw,
        pcOne_not_logical E f "$less" w (by decide) (by decide) (by decide), pcLeaf,
        hitem f, jsLt_undef_left]
    · simp [pcEntries, jsStrictEq_undef hw,
        pcOne_not_logical E f "$lessEqual" w (by decide) (by decide) (by decide), pcLeaf,
        hitem f, jsLe_undef_left]
    · simp [pcEntries, jsStrictEq_undef hw,
        pcOne_not_logical E f "$greater" w (by decide) (by decide) (by decide), pcLeaf,
        hitem f, jsGt, jsLt_undef_right]
    · simp [pcEntries, jsStrictEq_undef hw,
        pcOne_not_logical E f "$greaterEqual" w (by decide) (by decide) (by decide), pcLeaf,
        hitem f, jsGe, jsLe_undef_right]
    · simp [pcEntries, jsStrictEq_undef hw,
        pcOne_not_logical E f "$equal" w (by decide) (by decide) (by decide), pcLeaf,
        hitem f, deepEqual_undef_left hw]
    · simp [pcEntries, jsStrictEq_undef hw,
        pcOne_not_logical E f "$dateBefore" w (by decide) (by decide) (by decide), pcLeaf,
        hitem f, dateBeforeTest, jsLt_undef_left]
    · simp [pcEntries, jsStrictEq_undef hw,
        pcOne_not_logical E f "$dateAfter" w (by decide) (by decide) (by decide), pcLeaf,
        hitem f, dateAfterTest, jsGt, jsLt_undef_right]
    · obtain ⟨cs, rfl⟩ := hin rfl
      simp [pcEntries, jsStrictEq,
        pcOne_not_logical E f "$in" (JSVal.arr cs) (by decide) (by decide) (by decide),
        pcLeaf, hitem f, includesTruthy_arr_undef]
    · simp [pcEntries, jsStrictEq_undef hw,
        pcOne_not_logical E f "$contains" w (by decide) (by decide) (by decide), pcLeaf,
        hitem f, containsTest]
    · simp [pcEntries, jsStrictEq_undef hw,
        pcOne_not_logical E f "$notContains" w (by decide) (by decide) (by decide), pcLeaf,
        hitem f, notContainsTest]

/-- C5 witness: a solely-negative condition matches the empty item, and a
single `$equal` condition rejects it. -/
theorem C5_amended_witness :
    matchQueryCondition E0 (.obj [])
      (.obj [("a", .obj [("$not", .str "John")]), ("b", .obj [("$notIn", .arr [.num 1])])])
      = true
  ∧ matchQueryCondition E0 (.obj [])
      (.obj [("g", .obj [("$equal", .num 5)])]) = false := by
  constructor
  · refine (C5_amended E0).1 (.obj []) _ (fun _ => rfl) ?_
    intro kv hkv
    simp only [List.mem_cons, List.not_mem_nil, or_false] at hkv
    rcases hkv with rfl | rfl
    · refine ⟨⟨by decide, by decide, by decide⟩, [("$not", .str "John")], rfl, by simp, ?_⟩
      intro e he
      simp only [List.mem_cons, List.not_mem_nil, or_false] at he
      subst he
      exact Or.inl ⟨rfl, by simp⟩
    · refine ⟨⟨by decide, by decide, by decide⟩, [("$notIn", .arr [.num 1])], rfl, by simp, ?_⟩
      intro e he
      simp only [List.mem_cons, List.not_mem_nil, or_false] at he
      subst he
      exact Or.inr ⟨rfl, [.num 1], rfl⟩
  · exact (C5_amended E0).2 (.obj []) "g" "$equal" (.num 5) (fun _ => rfl)
      (by decide) (by decide) (by decide) (by simp) (by simp)
      (fun h => absurd h (by decide))
